import Mathlib

/-!
Shallow embedding of the regional missense constraint (RMC) pipeline
(repository illusional/regional_missense_constraint) in Lean 4, together with
theorems settling the specification claims about it.

Conventions of the embedding:
- Hail tables are lists of row structures; a possibly-missing Hail value is an
  `Option`.
- 64-bit integer fields are `Int`, floating-point fields are `Rat` where no
  transcendental function occurs and `Real` where `log` / `log10` occur.
- A Python function that can raise returns `Except String`.
-/

/-- Model of `hl.or_missing`: missing when the condition is missing or false,
the (possibly missing) value otherwise. -/
def hl_or_missing {α : Type} (cond : Option Bool) (v : Option α) : Option α :=
  match cond with
  | some true => v
  | _ => none

/-- Model of `hl.min(x, 1)` on a possibly-missing value. -/
def hl_min_one (x : Option ℚ) : Option ℚ :=
  x.map (fun v => min v 1)

/-- Model of Hail division `obs / exp` on possibly-missing operands. -/
def hl_div (a : Option ℤ) (b : Option ℚ) : Option ℚ :=
  match a, b with
  | some x, some y => some ((x : ℚ) / y)
  | _, _ => none

/-- Model of the Hail expression `x != 0` on a possibly-missing operand. -/
def hl_ne_zero (x : Option ℚ) : Option Bool :=
  x.map (fun v => v != 0)

/-- Embedding of `rmc.utils.constraint.get_obs_exp_expr`:
`hl.or_missing(cond_expr, hl.min(obs_expr / exp_expr, 1))`. -/
def get_obs_exp_expr (cond_expr : Option Bool) (obs_expr : Option ℤ)
    (exp_expr : Option ℚ) : Option ℚ :=
  hl_or_missing cond_expr (hl_min_one (hl_div obs_expr exp_expr))

/-- Embedding of `rmc.utils.generic.keep_criteria` (population-frequency form):
`(ac > 0) & (af < af_threshold) & (len(filters) == 0) & (cov > cov_threshold)`. -/
def keep_criteria (ac_expr : ℤ) (af_expr : ℚ) (filters_expr : List String)
    (cov_expr : ℤ) (af_threshold : ℚ) (cov_threshold : ℤ) : Bool :=
  decide (ac_expr > 0) && decide (af_expr < af_threshold)
    && (filters_expr.length == 0) && decide (cov_expr > cov_threshold)

/-- Row fields produced by `get_reverse_obs_exp_expr` (the `reverse` struct:
reverse observed and expected counts, each possibly missing). -/
structure ReverseCounts where
  obs : Option ℤ
  exp : Option ℚ
deriving DecidableEq, Repr

/-- Embedding of `rmc.utils.constraint.get_reverse_obs_exp_expr`:
`hl.struct(obs=hl.or_missing(cond, total_obs - scan_obs),
exp=hl.or_missing(cond, total_exp - scan_exp))`; the condition expression is a
defined boolean (a scan-length check) at every call site. -/
def get_reverse_obs_exp_expr (cond_expr : Bool) (total_obs_expr : ℤ)
    (total_exp_expr : ℚ) (scan_obs_expr : ℤ) (scan_exp_expr : ℚ) : ReverseCounts :=
  { obs := hl_or_missing (some cond_expr) (some (total_obs_expr - scan_obs_expr))
    exp := hl_or_missing (some cond_expr) (some (total_exp_expr - scan_exp_expr)) }

/-- Embedding of the `reverse_obs_exp` annotation added by
`rmc.utils.constraint.get_reverse_exprs` (and, identically, by
`search_for_break`): `get_obs_exp_expr((reverse.exp != 0), reverse.obs,
reverse.exp)`, which sets the reverse observed/expected ratio to missing
whenever the reverse expected value is 0. -/
def reverse_obs_exp (reverse : ReverseCounts) : Option ℚ :=
  get_obs_exp_expr (hl_ne_zero reverse.exp) reverse.obs reverse.exp

/-- C5: the population-form `keep_criteria` predicate retains a row exactly when
allele count > 0, allele frequency < 0.001, there are zero failed filters, and
median coverage > the coverage threshold (default 0); a row with allele count 5,
frequency 0.0005, empty filters, coverage 10 is retained; a row with frequency
0.01 is rejected; a row with allele count 0 is rejected regardless of the other
fields. -/
theorem keep_criteria_spec :
    (∀ (ac : ℤ) (af : ℚ) (fl : List String) (cov : ℤ),
      keep_criteria ac af fl cov (1/1000) 0 = true ↔
        (0 < ac ∧ af < 1/1000 ∧ fl = [] ∧ 0 < cov)) ∧
    keep_criteria 5 (5/10000) [] 10 (1/1000) 0 = true ∧
    keep_criteria 5 (1/100) [] 10 (1/1000) 0 = false ∧
    (∀ (af : ℚ) (fl : List String) (cov : ℤ),
      keep_criteria 0 af fl cov (1/1000) 0 = false) := by
  refine ⟨fun ac af fl cov => ?_, by norm_num [keep_criteria],
    by norm_num [keep_criteria], fun af fl cov => ?_⟩
  · simp [keep_criteria, List.length_eq_zero, and_assoc]
  · simp [keep_criteria]

/-- Witness for C5 at a concrete retained row. -/
theorem keep_criteria_spec_witness :
    keep_criteria 5 (5/10000) [] 10 (1/1000) 0 = true :=
  keep_criteria_spec.2.1

/-- C6: `get_obs_exp_expr` never returns a value greater than 1 (the ratio is
capped at 1) for a positive expected count, and returns a missing value whenever
its condition expression is false, regardless of the observed/expected
magnitudes. -/
theorem get_obs_exp_expr_spec (cond : Option Bool) (obs : Option ℤ) (e : ℚ)
    (he : 0 < e) :
    (∀ v, get_obs_exp_expr cond obs (some e) = some v → v ≤ 1) ∧
    (∀ (o : Option ℤ) (ex : Option ℚ),
      get_obs_exp_expr (some false) o ex = none) := by
  constructor
  · intro v hv
    match cond, obs with
    | some true, some o =>
        simp only [get_obs_exp_expr, hl_or_missing, hl_min_one, hl_div,
          Option.map_some', Option.some.injEq] at hv
        exact hv ▸ min_le_right _ _
    | some true, none => simp [get_obs_exp_expr, hl_or_missing, hl_min_one, hl_div] at hv
    | some false, _ => simp [get_obs_exp_expr, hl_or_missing] at hv
    | none, _ => simp [get_obs_exp_expr, hl_or_missing] at hv
  · intro o ex
    simp [get_obs_exp_expr, hl_or_missing]

/-- Witness for C6 at a concrete input. -/
theorem get_obs_exp_expr_spec_witness :
    get_obs_exp_expr (some false) (some 5) (some 2) = none :=
  (get_obs_exp_expr_spec (some true) (some 5) 2 (by norm_num)).2 (some 5) (some 2)

/-- C7: the reverse (suffix) observed and expected aggregates equal the totals
minus the cumulative scan values, and the reverse observed/expected ratio
`min(reverse_obs / reverse_exp, 1)` is non-missing only when the reverse
expected value is not 0 (it is set missing whenever `reverse_exp == 0`). -/
theorem get_reverse_exprs_spec (cond : Bool) (tobs : ℤ) (texp : ℚ)
    (sobs : ℤ) (sexp : ℚ) :
    (cond = true →
      (get_reverse_obs_exp_expr cond tobs texp sobs sexp).obs = some (tobs - sobs) ∧
      (get_reverse_obs_exp_expr cond tobs texp sobs sexp).exp = some (texp - sexp)) ∧
    ((get_reverse_obs_exp_expr cond tobs texp sobs sexp).exp = some 0 →
      reverse_obs_exp (get_reverse_obs_exp_expr cond tobs texp sobs sexp) = none) ∧
    (∀ v, reverse_obs_exp (get_reverse_obs_exp_expr cond tobs texp sobs sexp) = some v →
      ∃ o e, (get_reverse_obs_exp_expr cond tobs texp sobs sexp).obs = some o ∧
        (get_reverse_obs_exp_expr cond tobs texp sobs sexp).exp = some e ∧
        e ≠ 0 ∧ v = min ((o : ℚ) / e) 1) := by
  refine ⟨fun hc => ?_, fun h0 => ?_, fun v hv => ?_⟩
  · subst hc
    simp [get_reverse_obs_exp_expr, hl_or_missing]
  · cases cond with
    | false => simp [reverse_obs_exp, get_reverse_obs_exp_expr, hl_or_missing,
        hl_ne_zero, get_obs_exp_expr]
    | true =>
        simp only [get_reverse_obs_exp_expr, hl_or_missing] at h0 ⊢
        simp only [Option.some.injEq] at h0
        simp [reverse_obs_exp, get_obs_exp_expr, hl_ne_zero, hl_or_missing, h0,
          get_reverse_obs_exp_expr]
  · cases cond with
    | false => simp [reverse_obs_exp, get_reverse_obs_exp_expr, hl_or_missing,
        hl_ne_zero, get_obs_exp_expr] at hv
    | true =>
        refine ⟨tobs - sobs, texp - sexp, by simp [get_reverse_obs_exp_expr,
          hl_or_missing], by simp [get_reverse_obs_exp_expr, hl_or_missing], ?_, ?_⟩
        · intro he0
          simp [reverse_obs_exp, get_reverse_obs_exp_expr, hl_or_missing,
            hl_ne_zero, get_obs_exp_expr, he0, hl_min_one, hl_div] at hv
        · by_cases he0 : texp - sexp = 0
          · simp [reverse_obs_exp, get_reverse_obs_exp_expr, hl_or_missing,
              hl_ne_zero, get_obs_exp_expr, he0, hl_min_one, hl_div] at hv
          · have hb : (texp - sexp != 0) = true := by
              simpa [bne_iff_ne] using he0
            have hval : reverse_obs_exp (get_reverse_obs_exp_expr true tobs texp sobs sexp)
                = some (min (((tobs - sobs : ℤ) : ℚ) / (texp - sexp)) 1) := by
              simp [reverse_obs_exp, get_reverse_obs_exp_expr, hl_or_missing,
                hl_ne_zero, get_obs_exp_expr, hb, hl_min_one, hl_div]
            rw [hval, Option.some.injEq] at hv
            exact hv.symm

/-- Witness for C7 at a concrete input. -/
theorem get_reverse_exprs_spec_witness :
    (get_reverse_obs_exp_expr true 5 3 2 1).obs = some 3 ∧
    (get_reverse_obs_exp_expr true 5 3 2 1).exp = some 2 := by
  have h := (get_reverse_exprs_spec true 5 3 2 1).1 rfl
  norm_num at h
  exact h

section
open Classical

/-- Embedding of `rmc.utils.generic.get_coverage_correction_expr`:
`hl.case().when(coverage == 0, 0).when(coverage >= high_cov_cutoff, 1)
.default(coverage_model[1] * hl.log10(coverage) + coverage_model[0])`.
The coverage model is the (intercept, slope) pair produced by `build_models`. -/
noncomputable def get_coverage_correction_expr (coverage : ℝ)
    (coverage_model : ℝ × ℝ) (high_cov_cutoff : ℕ) : ℝ :=
  if coverage = 0 then 0
  else if coverage ≥ (high_cov_cutoff : ℝ) then 1
  else coverage_model.2 * Real.logb 10 coverage + coverage_model.1

end

/-- C4: with the default high-coverage cutoff of 40, the coverage correction is
0 at coverage 0, 1 at any coverage at least 40, and otherwise the model slope
times log10 of the coverage plus the model intercept, for every coverage model. -/
theorem get_coverage_correction_expr_spec (c : ℝ) (model : ℝ × ℝ) :
    get_coverage_correction_expr 0 model 40 = 0 ∧
    ((40 : ℝ) ≤ c → get_coverage_correction_expr c model 40 = 1) ∧
    (0 < c → c < 40 →
      get_coverage_correction_expr c model 40 = model.2 * Real.logb 10 c + model.1) := by
  have hcast : ((40 : ℕ) : ℝ) = (40 : ℝ) := by norm_num
  refine ⟨?_, fun h40 => ?_, fun h0 hlt => ?_⟩
  · simp [get_coverage_correction_expr]
  · have hne : c ≠ 0 := by linarith
    rw [get_coverage_correction_expr, if_neg hne, if_pos (by rw [hcast]; exact h40)]
  · have hne : c ≠ 0 := ne_of_gt h0
    rw [get_coverage_correction_expr, if_neg hne,
      if_neg (by rw [hcast]; exact not_le.mpr hlt)]

/-- Witness for C4 at concrete inputs. -/
theorem get_coverage_correction_expr_spec_witness :
    get_coverage_correction_expr 50 ((3 : ℝ), (2 : ℝ)) 40 = 1 :=
  (get_coverage_correction_expr_spec 50 (3, 2)).2.1 (by norm_num)

/-- One row of the table scanned by `search_for_break` after the forward and
reverse null/alt annotations: only the `section_null` and `section_alt` fields
feed the chi-square computation of lines 521 to 536. -/
structure BreakRow where
  section_null : ℝ
  section_alt : ℝ

/-- Embedding of the `chisq` annotation of `search_for_break`:
`2 * (hl.log(section_alt) - hl.log(section_null))` (`hl.log` is the natural
logarithm). -/
noncomputable def chisq (r : BreakRow) : ℝ :=
  2 * (Real.log r.section_alt - Real.log r.section_null)

/-- Model of `hl.agg.max`: fold of `max` over the aggregated values, missing on
an empty aggregation. -/
def agg_max_step {α : Type} [LinearOrder α] (acc : Option α) (x : α) : Option α :=
  match acc with
  | none => some x
  | some m => some (max m x)

/-- Model of `hl.agg.max` over a column of a table. -/
def agg_max {α : Type} [LinearOrder α] (l : List α) : Option α :=
  l.foldl agg_max_step none

theorem agg_max_go {α : Type} [LinearOrder α] (l : List α) (a : α) :
    ∃ m, l.foldl agg_max_step (some a) = some m ∧ (m = a ∨ m ∈ l) ∧ a ≤ m ∧
      ∀ x ∈ l, x ≤ m := by
  induction l generalizing a with
  | nil => exact ⟨a, rfl, Or.inl rfl, le_refl a, by simp⟩
  | cons x xs ih =>
      obtain ⟨m, hm, hmem, hle, hub⟩ := ih (max a x)
      refine ⟨m, hm, ?_, le_trans (le_max_left a x) hle, ?_⟩
      · rcases hmem with h | h
        · rcases max_choice a x with hax | hax
          · exact Or.inl (h.trans hax)
          · exact Or.inr (by simp [h, hax])
        · exact Or.inr (List.mem_cons_of_mem x h)
      · intro y hy
        rcases List.mem_cons.mp hy with h | h
        · exact h ▸ le_trans (le_max_right a x) hle
        · exact hub y h

theorem agg_max_spec {α : Type} [LinearOrder α] (l : List α) (h : l ≠ []) :
    ∃ m, agg_max l = some m ∧ m ∈ l ∧ ∀ x ∈ l, x ≤ m := by
  match l with
  | [] => exact absurd rfl h
  | x :: xs =>
      obtain ⟨m, hm, hmem, hle, hub⟩ := agg_max_go xs x
      refine ⟨m, hm, ?_, ?_⟩
      · rcases hmem with h | h
        · exact h ▸ List.mem_cons_self x xs
        · exact List.mem_cons_of_mem x h
      · intro y hy
        rcases List.mem_cons.mp hy with h | h
        · exact h ▸ hle
        · exact hub y h

section
open Classical

/-- Embedding of the tail of `rmc.utils.constraint.search_for_break` (lines 526
to 536): annotate `chisq`, aggregate the table-wide maximum, return the table
filtered to the rows attaining the maximum when it meets the caller-supplied
threshold, and `None` otherwise. -/
noncomputable def search_for_break (rows : List BreakRow)
    (chisq_threshold : ℝ) : Option (List BreakRow) :=
  match agg_max (rows.map chisq) with
  | none => none
  | some max_chisq =>
      if max_chisq ≥ chisq_threshold then
        some (rows.filter (fun r => decide (chisq r = max_chisq)))
      else none

/-- C1: the breakpoint statistic is `chisq = 2 * (ln(section_alt) -
ln(section_null))`; on a nonempty unit, `search_for_break` returns the rows
attaining the table-wide maximum chi-square when that maximum is at least the
caller-supplied threshold, and returns an absent result (no break, no
exception) when the maximum is below the threshold. -/
theorem search_for_break_spec (rows : List BreakRow) (t : ℝ) (hne : rows ≠ []) :
    ∃ m, agg_max (rows.map chisq) = some m ∧ m ∈ rows.map chisq ∧
      (∀ x ∈ rows.map chisq, x ≤ m) ∧
      (∀ r, chisq r = 2 * (Real.log r.section_alt - Real.log r.section_null)) ∧
      (t ≤ m → ∃ out, search_for_break rows t = some out ∧
        ∀ r, r ∈ out ↔ (r ∈ rows ∧ chisq r = m)) ∧
      (m < t → search_for_break rows t = none) := by
  obtain ⟨m, hm, hmem, hub⟩ := agg_max_spec (rows.map chisq) (by
    intro h
    exact hne (List.map_eq_nil_iff.mp h))
  have h1 : search_for_break rows t =
      if m ≥ t then some (rows.filter (fun r => decide (chisq r = m))) else none := by
    simp only [search_for_break, hm]
  refine ⟨m, hm, hmem, hub, fun r => rfl, fun hts => ?_, fun hlt => ?_⟩
  · refine ⟨rows.filter (fun r => decide (chisq r = m)), ?_, ?_⟩
    · rw [h1, if_pos hts]
    · intro r
      simp [List.mem_filter]
  · rw [h1, if_neg (not_le.mpr hlt)]

/-- Witness for C1: a single-row unit with equal null and alt probabilities has
maximum chi-square 0, below a threshold of 1, so no break is reported. -/
theorem search_for_break_spec_witness :
    search_for_break [⟨1, 1⟩] 1 = none := by
  obtain ⟨m, _, hmem, _, _, _, hlt⟩ :=
    search_for_break_spec [⟨1, 1⟩] 1 (by simp)
  have hm0 : m = 0 := by
    simp only [List.map, List.mem_singleton, chisq] at hmem
    simpa [Real.log_one] using hmem
  exact hlt (by rw [hm0]; norm_num)

end

/-- One row of the processed context table consumed by the `finalize` phase of
`rmc.pipeline.regional_constraint`. -/
structure ContextRow where
  locus : ℤ
  transcript : String
deriving DecidableEq, Repr

/-- Embedding of the row-count validation of the `finalize` phase
(`regional_constraint.py` lines 724 to 727): raise a `DataException` when the
breaks row count plus the no-breaks row count differs from the context row
count. -/
def row_count_mismatch_msg : String :=
  "Row counts for breaks HT (one break, multiple breaks, simul breaks) and no breaks HT do not match context HT row count!"

def finalize_row_count_check (breaks_count no_breaks_count context_count : ℕ) :
    Except String Unit :=
  if breaks_count + no_breaks_count ≠ context_count then
    Except.error row_count_mismatch_msg
  else Except.ok ()

/-- Embedding of the `finalize` phase of `rmc.pipeline.regional_constraint`:
the breaks table is the context table filtered to transcripts with break
evidence, the no-breaks table is the complement filter (with a row-preserving
XG re-annotation applied on gnomAD v2.1.1), and the two checkpoints are written
only after the row-count validation passes. -/
def finalize_phase (context_rows : List ContextRow)
    (total_rmc_transcripts : List String) (xg_annotate : ContextRow → ContextRow)
    (is_v2_1_1 : Bool) : Except String (List ContextRow × List ContextRow) :=
  let breaks_ht := context_rows.filter
    (fun r => total_rmc_transcripts.contains r.transcript)
  let no_breaks_base := context_rows.filter
    (fun r => !(total_rmc_transcripts.contains r.transcript))
  let no_breaks_ht := if is_v2_1_1 then no_breaks_base.map xg_annotate else no_breaks_base
  match finalize_row_count_check breaks_ht.length no_breaks_ht.length
      context_rows.length with
  | Except.error e => Except.error e
  | Except.ok _ => Except.ok (breaks_ht, no_breaks_ht)

lemma length_filter_add_length_filter_not {α : Type} (p : α → Bool) (l : List α) :
    (l.filter p).length + (l.filter (fun a => !(p a))).length = l.length := by
  induction l with
  | nil => rfl
  | cons x xs ih =>
      cases hx : p x with
      | true =>
          simp only [List.filter_cons, hx, Bool.not_true, if_true, if_false,
            List.length_cons, Bool.false_eq_true, ite_false, ite_true]
          omega
      | false =>
          simp only [List.filter_cons, hx, Bool.not_false, if_true, if_false,
            List.length_cons, Bool.false_eq_true, ite_false, ite_true]
          omega

/-- C2: in the finalize phase, the breaks row count plus the no-breaks row
count always equals the (outlier-filtered) context row count, the phase
succeeds exactly under that equality, and the row-count check raises a fatal
error precisely when the two counts do not sum to the input count (so no
output is silently accepted on a mismatch). -/
theorem finalize_phase_spec (ctx : List ContextRow) (rmc : List String)
    (f : ContextRow → ContextRow) (v : Bool) :
    (∀ b n c, (∃ e, finalize_row_count_check b n c = Except.error e) ↔ b + n ≠ c) ∧
    (∃ breaks no_breaks,
      finalize_phase ctx rmc f v = Except.ok (breaks, no_breaks) ∧
      breaks.length + no_breaks.length = ctx.length) := by
  constructor
  · intro b n c
    constructor
    · rintro ⟨e, he⟩
      by_contra hc
      simp [finalize_row_count_check, hc] at he
    · intro hne
      exact ⟨row_count_mismatch_msg, by simp [finalize_row_count_check, hne]⟩
  · have hsum :
        (ctx.filter (fun r => rmc.contains r.transcript)).length +
          (if v then (ctx.filter
              (fun r => !(rmc.contains r.transcript))).map f
            else ctx.filter (fun r => !(rmc.contains r.transcript))).length
          = ctx.length := by
      by_cases hv : v
      · simp only [hv, if_true, List.length_map]
        exact length_filter_add_length_filter_not _ ctx
      · simp only [hv, if_false]
        exact length_filter_add_length_filter_not _ ctx
    refine ⟨_, _, ?_, hsum⟩
    simp only [finalize_phase, finalize_row_count_check, hsum]
    simp

/-- Witness for C2 at a concrete context table. -/
theorem finalize_phase_spec_witness :
    ∃ breaks no_breaks,
      finalize_phase [⟨7, "ENST1"⟩, ⟨9, "ENST2"⟩] ["ENST1"] id false =
        Except.ok (breaks, no_breaks) ∧
      breaks.length + no_breaks.length = 2 :=
  (finalize_phase_spec [⟨7, "ENST1"⟩, ⟨9, "ENST2"⟩] ["ENST1"] id false).2

/-- One exploded transcript-consequence row of a VEP-annotated table, as seen
by `process_vep` after the canonical-transcript filtering. -/
structure VepRow where
  transcript_id : String
  most_severe_consequence : String
deriving DecidableEq, Repr

/-- Embedding of `rmc.utils.generic.process_vep`. The multiallelic split, the
canonical-transcript filtering, and the most-severe-consequence annotation are
external library calls, modelled by the caller-supplied `vep_prep` function;
the non-outlier filtering keeps rows whose transcript is in the
constraint-pass set; then, if `filter_csq` is set, a missing (or empty) `csq`
raises `DataException` before the consequence filter is applied. -/
def process_vep (vep_prep : List VepRow → List VepRow)
    (constraint_transcripts : List String) (ht : List VepRow)
    (filter_csq : Bool) (csq : Option String) : Except String (List VepRow) :=
  let ht1 := vep_prep ht
  let ht2 := ht1.filter (fun r => constraint_transcripts.contains r.transcript_id)
  if filter_csq then
    match csq with
    | none => Except.error "Need to specify consequence if filter_csq is True!"
    | some c =>
        if c = "" then Except.error "Need to specify consequence if filter_csq is True!"
        else Except.ok (ht2.filter (fun r => r.most_severe_consequence == c))
  else Except.ok ht2

/-- C10: calling `process_vep` with `filter_csq=True` and `csq=None` raises a
`DataException` before any consequence filtering, for every input table; with
`filter_csq=False` the `csq` argument is ignored and no such error can occur. -/
theorem process_vep_spec (prep : List VepRow → List VepRow)
    (cts : List String) (ht : List VepRow) (csq csq2 : Option String) :
    process_vep prep cts ht true none =
      Except.error "Need to specify consequence if filter_csq is True!" ∧
    process_vep prep cts ht false csq = process_vep prep cts ht false csq2 ∧
    (∃ out, process_vep prep cts ht false csq = Except.ok out) := by
  refine ⟨rfl, rfl, ⟨_, rfl⟩⟩

/-- Observable actions of a CLI pipeline stage; `copyLog` is the
`hl.copy_log(LOGGING_PATH)` call. -/
inductive CliEffect where
  | copyLog
  | work (step : ℕ)
deriving DecidableEq, Repr

/-- Embedding of `rmc.pipeline.regional_constraint.main`: the stage body is
wrapped in `try ... finally: hl.copy_log(LOGGING_PATH)`, so whichever prefix of
the body actually executes (`executed_body`, which may be cut short by a
raise), the log copy runs on the way out. -/
def regional_constraint_main (executed_body : List CliEffect) : List CliEffect :=
  executed_body ++ [CliEffect.copyLog]

/-- Embedding of `rmc.pipeline.calculate_mpc.main`: body wrapped in
`try ... finally: hl.copy_log(LOGGING_PATH)`. -/
def calculate_mpc_main (executed_body : List CliEffect) : List CliEffect :=
  executed_body ++ [CliEffect.copyLog]

/-- Embedding of `rmc.pipeline.two_breaks.prepare_transcripts.main`: body
wrapped in `try ... finally: hl.copy_log(LOGGING_PATH)`. -/
def prepare_transcripts_main (executed_body : List CliEffect) : List CliEffect :=
  executed_body ++ [CliEffect.copyLog]

/-- Embedding of `rmc.pipeline.two_breaks.run_batches_dataproc.main`: body
wrapped in `try ... finally: hl.copy_log(LOGGING_PATH)`. -/
def run_batches_dataproc_main (executed_body : List CliEffect) : List CliEffect :=
  executed_body ++ [CliEffect.copyLog]

/-- Embedding of `rmc.pipeline.two_breaks.merge_hts.main`: body wrapped in
`try ... finally: hl.copy_log(LOGGING_PATH)`. -/
def merge_hts_main (executed_body : List CliEffect) : List CliEffect :=
  executed_body ++ [CliEffect.copyLog]

/-- Embedding of `rmc.pipeline.two_breaks.verify_transcripts.main`: the body
has no `try`/`finally` wrapper and never calls `hl.copy_log`, so the executed
effects are exactly the executed body prefix. -/
def verify_transcripts_main (executed_body : List CliEffect) : List CliEffect :=
  executed_body

/-- The command-line pipeline-stage programs of the repository, each paired
with the effect semantics of its `main`. -/
def pipeline_programs : List (String × (List CliEffect → List CliEffect)) :=
  [("regional_constraint", regional_constraint_main),
   ("calculate_mpc", calculate_mpc_main),
   ("prepare_transcripts", prepare_transcripts_main),
   ("run_batches_dataproc", run_batches_dataproc_main),
   ("merge_hts", merge_hts_main),
   ("verify_transcripts", verify_transcripts_main)]

/-- Counterexample for C9: it is not the case that every pipeline CLI program
copies its execution log on the way out of every run; `verify_transcripts`
(with an empty executed body, i.e. an immediately-returning run) produces no
`copyLog` effect. -/
theorem pipeline_log_copy_counterexample :
    ¬ (∀ p ∈ pipeline_programs, ∀ executed_body : List CliEffect,
        CliEffect.copyLog ∈ p.2 executed_body) := by
  intro h
  have hv : ("verify_transcripts", verify_transcripts_main) ∈ pipeline_programs := by
    simp [pipeline_programs]
  have := h _ hv []
  simp [verify_transcripts_main] at this

/-- C9 (amended): every pipeline CLI program except `verify_transcripts`
copies its execution log to the shared remote logging path on the way out of
every run, whether the body ran to completion or raised partway
(finally-guaranteed); `verify_transcripts` never copies its log. -/
theorem pipeline_log_copy_spec :
    (∀ p ∈ pipeline_programs, p.1 ≠ "verify_transcripts" →
      ∀ executed_body : List CliEffect, CliEffect.copyLog ∈ p.2 executed_body) ∧
    (∀ executed_body : List CliEffect,
      CliEffect.copyLog ∈ verify_transcripts_main executed_body ↔
        CliEffect.copyLog ∈ executed_body) := by
  constructor
  · intro p hp hne executed_body
    simp only [pipeline_programs, List.mem_cons, List.mem_singleton] at hp
    rcases hp with h | h | h | h | h | h | h
    · subst h; simp [regional_constraint_main]
    · subst h; simp [calculate_mpc_main]
    · subst h; simp [prepare_transcripts_main]
    · subst h; simp [run_batches_dataproc_main]
    · subst h; simp [merge_hts_main]
    · subst h; exact absurd rfl hne
    · exact absurd h (List.not_mem_nil p)
  · intro executed_body
    simp [verify_transcripts_main]

/-- Witness for C9 (amended) at a concrete program and run. -/
theorem pipeline_log_copy_spec_witness :
    CliEffect.copyLog ∈ regional_constraint_main [CliEffect.work 0] :=
  pipeline_log_copy_spec.1 ("regional_constraint", regional_constraint_main)
    (by simp [pipeline_programs]) (by simp) [CliEffect.work 0]

/-- Python dict assignment `d[k] = v`: overwrite in place when the key exists,
append otherwise. -/
def dict_insert {α : Type} (d : List (String × α)) (k : String) (v : α) :
    List (String × α) :=
  if d.any (fun p => p.1 == k) then
    d.map (fun p => if p.1 == k then (k, v) else p)
  else d ++ [(k, v)]

/-- Split a character list at every character satisfying `p` (separators are
consumed; empty groups are kept, as in Python `str.split(sep)`). -/
def split_on_pred (p : Char → Bool) : List Char → List (List Char)
  | [] => [[]]
  | c :: rest =>
      match split_on_pred p rest with
      | [] => [[]]
      | g :: gs => if p c then [] :: g :: gs else (c :: g) :: gs

/-- Python `s.strip()`: drop whitespace from both ends. -/
def py_strip (s : String) : String :=
  String.mk
    (((s.toList.dropWhile (fun c => c.isWhitespace)).reverse.dropWhile
      (fun c => c.isWhitespace)).reverse)

/-- Python `s.split()` with no separator: split on whitespace, discarding
empty tokens. -/
def py_split_whitespace (s : String) : List String :=
  ((split_on_pred (fun c => c.isWhitespace) s.toList).map String.mk).filter
    (fun t => t != "")

/-- Python `s.split(sep)` for a one-character separator: split at every
occurrence, keeping empty tokens. -/
def py_split_on_char (s : String) (sep : Char) : List String :=
  (split_on_pred (fun c => c == sep) s.toList).map String.mk

/-- Loop body of `rmc.utils.generic.get_codon_lookup`: for each line,
`line = line.strip().split(); codon_lookup[line[0]] = line[1]` (an
`IndexError` propagates when a line has fewer than two fields). -/
def get_codon_lookup_lines :
    List String → List (String × String) → Except String (List (String × String))
  | [], d => Except.ok d
  | l :: rest, d =>
      match py_split_whitespace (py_strip l) with
      | k :: v :: _ => get_codon_lookup_lines rest (dict_insert d k v)
      | _ => Except.error "IndexError"

/-- Embedding of `rmc.utils.generic.get_codon_lookup`: `c.readline()` discards
the first line, then every further line is parsed into the dictionary. -/
def get_codon_lookup (lines : List String) : Except String (List (String × String)) :=
  match lines with
  | [] => Except.ok []
  | _ :: rest => get_codon_lookup_lines rest []

/-- Loop body of `rmc.utils.generic.get_aa_map`: for each line,
`line = line.strip().split(tab); aa_map[line[2]] = line[1]`. -/
def get_aa_map_lines :
    List String → List (String × String) → Except String (List (String × String))
  | [], d => Except.ok d
  | l :: rest, d =>
      match py_split_on_char (py_strip l) '\t' with
      | _ :: v :: k :: _ => get_aa_map_lines rest (dict_insert d k v)
      | _ => Except.error "IndexError"

/-- Embedding of `rmc.utils.generic.get_aa_map`: `a.readline()` discards the
first line, then every further line is parsed into the dictionary. -/
def get_aa_map (lines : List String) : Except String (List (String × String)) :=
  match lines with
  | [] => Except.ok []
  | _ :: rest => get_aa_map_lines rest []

/-- Loop body of `rmc.utils.generic.get_mutation_rate`: for each line,
`context, _, _, _, new_kmer, _, _, mu_snp = line.strip().split(tab);
mu[context] = (new_kmer[1], mu_snp)` (a `ValueError` propagates when the field
count is not 8, an `IndexError` when `new_kmer` is shorter than 2). -/
def get_mutation_rate_lines :
    List String → List (String × (Char × String)) →
      Except String (List (String × (Char × String)))
  | [], d => Except.ok d
  | l :: rest, d =>
      match py_split_on_char (py_strip l) '\t' with
      | [context, _, _, _, new_kmer, _, _, mu_snp] =>
          match new_kmer.toList with
          | _ :: c :: _ =>
              get_mutation_rate_lines rest (dict_insert d context (c, mu_snp))
          | _ => Except.error "IndexError"
      | _ => Except.error "ValueError"

/-- Embedding of `rmc.utils.generic.get_mutation_rate`: unlike the other three
lookup imports, the loop starts at the first line of the file (there is no
`readline()` call), so every line, the header included, is parsed. -/
def get_mutation_rate (lines : List String) :
    Except String (List (String × (Char × String))) :=
  get_mutation_rate_lines lines []

/-- Numeric value of a digit list (most significant first). -/
def digits_val (cs : List Char) : ℕ :=
  cs.foldl (fun a c => 10 * a + (c.toNat - 48)) 0

/-- Model of Python `float(s)` on the decimal forms the divergence-score file
can contain: optional sign, integer digits, optional fractional digits;
everything else is a `ValueError`, modelled as `none`. -/
def parse_float (s : String) : Option ℚ :=
  let t := (py_strip s).toList
  let signed : ℚ × List Char :=
    match t with
    | '-' :: r => (-1, r)
    | '+' :: r => (1, r)
    | _ => (1, t)
  let int_part := signed.2.takeWhile (fun c => c.isDigit)
  let rest := signed.2.dropWhile (fun c => c.isDigit)
  match rest with
  | [] => if int_part.isEmpty then none else some (signed.1 * (digits_val int_part : ℚ))
  | '.' :: frac =>
      if frac.all (fun c => c.isDigit) && !(int_part.isEmpty && frac.isEmpty) then
        some (signed.1 *
          ((digits_val int_part : ℚ) + (digits_val frac : ℚ) / (10 ^ frac.length)))
      else none
  | _ => none

/-- Loop body of `rmc.utils.generic.get_divergence_scores`: for each line,
`transcript, score = line.strip().split(tab)`, then
`div_scores[transcript.split(".")[0]] = float(score)` inside a
`try/except ValueError: continue`, so a row whose score does not parse as a
number is silently skipped. -/
def get_divergence_scores_lines :
    List String → List (String × ℚ) → Except String (List (String × ℚ))
  | [], d => Except.ok d
  | l :: rest, d =>
      match py_split_on_char (py_strip l) '\t' with
      | [transcript, score] =>
          match parse_float score with
          | some v =>
              get_divergence_scores_lines rest
                (dict_insert d ((py_split_on_char transcript '.').headD "") v)
          | none => get_divergence_scores_lines rest d
      | _ => Except.error "ValueError"

/-- Embedding of `rmc.utils.generic.get_divergence_scores`: `d.readline()`
discards the first line, then every further line is parsed. -/
def get_divergence_scores (lines : List String) : Except String (List (String × ℚ)) :=
  match lines with
  | [] => Except.ok []
  | _ :: rest => get_divergence_scores_lines rest []

/-- Counterexample for C8: the mutation-rate import does not skip a header
line. On a one-line file the claim forces an empty dictionary, but the code
parses that single line into an entry. -/
theorem lookup_import_counterexample :
    get_mutation_rate ["AAA\tn\tp\tm\tATA\tc\tq\t0.5"] ≠ Except.ok [] ∧
    get_mutation_rate ["AAA\tn\tp\tm\tATA\tc\tq\t0.5"] =
      Except.ok [("AAA", ('T', "0.5"))] := by
  have h2 : get_mutation_rate ["AAA\tn\tp\tm\tATA\tc\tq\t0.5"] =
      Except.ok [("AAA", ('T', "0.5"))] := rfl
  refine ⟨?_, h2⟩
  rw [h2]
  intro h
  simp at h

/-- C8 (amended): the codon-table, amino-acid-name, and divergence-score
imports each skip one header line (the result is independent of the first
line); the mutation-rate import does not skip a header line (a one-line file
already yields an entry); and the divergence-score import silently skips any
row whose score field is not parseable as a number. -/
theorem lookup_import_spec :
    (∀ (h₁ h₂ : String) (rest : List String),
      get_codon_lookup (h₁ :: rest) = get_codon_lookup (h₂ :: rest)) ∧
    (∀ (h₁ h₂ : String) (rest : List String),
      get_aa_map (h₁ :: rest) = get_aa_map (h₂ :: rest)) ∧
    (∀ (h₁ h₂ : String) (rest : List String),
      get_divergence_scores (h₁ :: rest) = get_divergence_scores (h₂ :: rest)) ∧
    (∃ l : String, get_mutation_rate [l] ≠ Except.ok []) ∧
    (∀ (d : List (String × ℚ)) (l t s : String) (rest : List String),
      py_split_on_char (py_strip l) '\t' = [t, s] → parse_float s = none →
      get_divergence_scores_lines (l :: rest) d = get_divergence_scores_lines rest d) := by
  refine ⟨fun h₁ h₂ rest => rfl, fun h₁ h₂ rest => rfl, fun h₁ h₂ rest => rfl,
    ⟨"AAA\tn\tp\tm\tATA\tc\tq\t0.5", ?_⟩, fun d l t s rest hsplit hparse => ?_⟩
  · have h2 : get_mutation_rate ["AAA\tn\tp\tm\tATA\tc\tq\t0.5"] =
        Except.ok [("AAA", ('T', "0.5"))] := rfl
    rw [h2]
    intro h
    simp at h
  · simp only [get_divergence_scores_lines, hsplit, hparse]

/-- Witness for C8 (amended): a concrete divergence-score row with a
non-numeric score field is skipped. -/
theorem lookup_import_spec_witness :
    get_divergence_scores_lines ["ENST00000001.2\tabc"] [] =
      get_divergence_scores_lines [] [] :=
  lookup_import_spec.2.2.2.2 [] "ENST00000001.2\tabc" "ENST00000001.2" "abc" []
    rfl rfl

/-- One row of the amino-acid substitutions table (`amino_acids_oe`): reference
and alternate amino acids, observed indicator, and missense OE ratio. -/
structure AminoAcidRow where
  ref : String
  alt : String
  observed : ℤ
  oe : ℚ
deriving DecidableEq, Repr

/-- Embedding of `rmc.utils.missense_badness.variant_csq_expr`:
`hl.case().when(ref == alt, "syn").when(alt == "STOP", "non")
.when(ref == "STOP", "rdt").default("mis")`. -/
def variant_csq_expr (ref_expr alt_expr : String) : String :=
  if ref_expr == alt_expr then "syn"
  else if alt_expr == "STOP" then "non"
  else if ref_expr == "STOP" then "rdt"
  else "mis"

/-- One row of the per-amino-acid-pair aggregate produced by
`aggregate_aa_and_filter_oe`. -/
structure AggRow where
  ref : String
  alt : String
  obs : ℤ
  possible : ℤ
  mut_type : String
deriving DecidableEq, Repr

/-- Embedding of `rmc.utils.missense_badness.aggregate_aa_and_filter_oe`:
filter on the missense OE value (`oe > threshold` when keeping high OE,
`oe <= threshold` otherwise), group by (ref, alt) aggregating
`obs=hl.agg.sum(observed)` and `possible=hl.agg.count()`, and annotate the
variant consequence. -/
def aggregate_aa_and_filter_oe (ht : List AminoAcidRow) (keep_high_oe : Bool)
    (oe_threshold : ℚ) : List AggRow :=
  let filtered := ht.filter (fun r =>
    if keep_high_oe then decide (oe_threshold < r.oe) else decide (r.oe ≤ oe_threshold))
  ((filtered.map (fun r => (r.ref, r.alt))).dedup).map (fun k =>
    let grp := filtered.filter (fun r => r.ref == k.1 && r.alt == k.2)
    { ref := k.1, alt := k.2,
      obs := (grp.map AminoAcidRow.observed).sum,
      possible := (grp.length : ℤ),
      mut_type := variant_csq_expr k.1 k.2 })

/-- The ExAC-cutoff filter of `calculate_misbad`: when `use_exac_oe_cutoffs` is
set, remove all rows with `0.6 < OE <= 0.8`
(`ht.filter((ht.oe <= 0.6) | (ht.oe > 0.8))`). -/
def misbad_exac_filter (ht : List AminoAcidRow) (use_exac_oe_cutoffs : Bool) :
    List AminoAcidRow :=
  if use_exac_oe_cutoffs then
    ht.filter (fun r => decide (r.oe ≤ 3/5) || decide (4/5 < r.oe))
  else ht

/-- The high-OE half of the catalog built inside `calculate_misbad`. -/
def misbad_high_ht (ht : List AminoAcidRow) (use_exac_oe_cutoffs : Bool)
    (oe_threshold : ℚ) : List AggRow :=
  aggregate_aa_and_filter_oe (misbad_exac_filter ht use_exac_oe_cutoffs) true oe_threshold

/-- The low-OE half of the catalog built inside `calculate_misbad`. -/
def misbad_low_ht (ht : List AminoAcidRow) (use_exac_oe_cutoffs : Bool)
    (oe_threshold : ℚ) : List AggRow :=
  aggregate_aa_and_filter_oe (misbad_exac_filter ht use_exac_oe_cutoffs) false oe_threshold

/-- Embedding of `rmc.utils.missense_badness.get_total_csq_count`: filter by
variant consequence and sum the requested count field. -/
def get_total_csq_count (ht : List AggRow) (csq : String)
    (count_field : AggRow → ℤ) : ℤ :=
  ((ht.filter (fun r => r.mut_type == csq)).map count_field).sum

/-- The synonymous/nonsense rate computation of `calculate_misbad`:
`(obs_high / pos_high) / (obs_low / pos_low)` for the given consequence. -/
def misbad_rate (high_ht low_ht : List AggRow) (csq : String) : ℚ :=
  ((get_total_csq_count high_ht csq AggRow.obs : ℚ) /
      (get_total_csq_count high_ht csq AggRow.possible : ℚ)) /
    ((get_total_csq_count low_ht csq AggRow.obs : ℚ) /
      (get_total_csq_count low_ht csq AggRow.possible : ℚ))

/-- Keys of the outer join of the high-OE and low-OE aggregates. -/
def misbad_join_keys (high_ht low_ht : List AggRow) : List (String × String) :=
  ((high_ht.map (fun r => (r.ref, r.alt))) ++ (low_ht.map (fun r => (r.ref, r.alt)))).dedup

/-- The aggregate value a possibly-absent join side contributes to
`hl.agg.sum`: missing counts as 0. -/
def opt_obs (o : Option AggRow) : ℚ :=
  match o with
  | some r => (r.obs : ℚ)
  | none => 0

/-- The possible-site count a possibly-absent join side contributes to
`hl.agg.sum`: missing counts as 0. -/
def opt_pos (o : Option AggRow) : ℚ :=
  match o with
  | some r => (r.possible : ℚ)
  | none => 0

/-- Lookup of one (ref, alt) group in an aggregate table (the join sides have
unique keys, so the first match is the group). -/
def find_pair (ht : List AggRow) (ref_aa alt_aa : String) : Option AggRow :=
  ht.find? (fun r => r.ref == ref_aa && r.alt == alt_aa)

/-- One row of the missense badness output table. -/
structure MisbadRow where
  ref : String
  alt : String
  high_low : ℚ
  mut_type : String
  misbad : Option ℚ
deriving DecidableEq, Repr

/-- One output row of `calculate_misbad`: `high_low` is
`(high_obs/high_pos) / (low_obs/low_pos)` for the pair, and `misbad` is
`hl.or_missing(mut_type == "mis", hl.min((high_low - syn_rate) /
(non_rate - syn_rate), 1))`. -/
def misbad_row (high_ht low_ht : List AggRow) (syn_rate non_rate : ℚ)
    (k : String × String) : MisbadRow :=
  let high_low := (opt_obs (find_pair high_ht k.1 k.2) /
      opt_pos (find_pair high_ht k.1 k.2)) /
    (opt_obs (find_pair low_ht k.1 k.2) / opt_pos (find_pair low_ht k.1 k.2))
  { ref := k.1, alt := k.2, high_low := high_low,
    mut_type := variant_csq_expr k.1 k.2,
    misbad := if variant_csq_expr k.1 k.2 == "mis" then
        some (min ((high_low - syn_rate) / (non_rate - syn_rate)) 1)
      else none }

/-- Embedding of `rmc.utils.missense_badness.calculate_misbad`: split the
catalog into high/low OE halves, outer-join them per (ref, alt) pair, compute
the whole-catalog synonymous and nonsense rates, and annotate the badness
score for missense pairs only. -/
def calculate_misbad (ht : List AminoAcidRow) (use_exac_oe_cutoffs : Bool)
    (oe_threshold : ℚ) : List MisbadRow :=
  (misbad_join_keys (misbad_high_ht ht use_exac_oe_cutoffs oe_threshold)
      (misbad_low_ht ht use_exac_oe_cutoffs oe_threshold)).map
    (misbad_row (misbad_high_ht ht use_exac_oe_cutoffs oe_threshold)
      (misbad_low_ht ht use_exac_oe_cutoffs oe_threshold)
      (misbad_rate (misbad_high_ht ht use_exac_oe_cutoffs oe_threshold)
        (misbad_low_ht ht use_exac_oe_cutoffs oe_threshold) "syn")
      (misbad_rate (misbad_high_ht ht use_exac_oe_cutoffs oe_threshold)
        (misbad_low_ht ht use_exac_oe_cutoffs oe_threshold) "non"))

lemma variant_csq_expr_ne_mis (ref_aa alt_aa : String)
    (h : ref_aa = alt_aa ∨ alt_aa = "STOP" ∨ ref_aa = "STOP") :
    variant_csq_expr ref_aa alt_aa ≠ "mis" := by
  rcases h with h | h | h
  · subst h
    rw [variant_csq_expr, if_pos (by simp)]
    decide
  · subst h
    unfold variant_csq_expr
    split_ifs <;> simp_all
  · subst h
    unfold variant_csq_expr
    split_ifs <;> simp_all

/-- C3: every output row of `calculate_misbad` carries the consequence
classification of its (ref, alt) pair; `high_low` is
`(high_obs/high_pos) / (low_obs/low_pos)`; the badness score
`min((high_low - syn_rate) / (non_rate - syn_rate), 1)` (capped at 1) is
annotated only for missense pairs; every non-missense pair (synonymous
`ref == alt`, nonsense `alt == STOP`, stop-lost `ref == STOP`) receives an
absent misbad value. -/
theorem calculate_misbad_spec (ht : List AminoAcidRow) (flag : Bool) (θ : ℚ) :
    ∀ r ∈ calculate_misbad ht flag θ,
      r.mut_type = variant_csq_expr r.ref r.alt ∧
      (r.mut_type = "mis" →
        r.misbad = some (min ((r.high_low -
            misbad_rate (misbad_high_ht ht flag θ) (misbad_low_ht ht flag θ) "syn") /
          (misbad_rate (misbad_high_ht ht flag θ) (misbad_low_ht ht flag θ) "non" -
            misbad_rate (misbad_high_ht ht flag θ) (misbad_low_ht ht flag θ) "syn")) 1)) ∧
      (∀ v, r.misbad = some v → v ≤ 1) ∧
      (r.mut_type ≠ "mis" → r.misbad = none) ∧
      ((r.ref = r.alt ∨ r.alt = "STOP" ∨ r.ref = "STOP") → r.misbad = none) ∧
      r.high_low =
        (opt_obs (find_pair (misbad_high_ht ht flag θ) r.ref r.alt) /
          opt_pos (find_pair (misbad_high_ht ht flag θ) r.ref r.alt)) /
        (opt_obs (find_pair (misbad_low_ht ht flag θ) r.ref r.alt) /
          opt_pos (find_pair (misbad_low_ht ht flag θ) r.ref r.alt)) := by
  intro r hr
  obtain ⟨k, hk, hrk⟩ := List.mem_map.mp hr
  subst hrk
  have hne_part : (misbad_row (misbad_high_ht ht flag θ) (misbad_low_ht ht flag θ)
      (misbad_rate (misbad_high_ht ht flag θ) (misbad_low_ht ht flag θ) "syn")
      (misbad_rate (misbad_high_ht ht flag θ) (misbad_low_ht ht flag θ) "non")
      k).mut_type ≠ "mis" →
      (misbad_row (misbad_high_ht ht flag θ) (misbad_low_ht ht flag θ)
        (misbad_rate (misbad_high_ht ht flag θ) (misbad_low_ht ht flag θ) "syn")
        (misbad_rate (misbad_high_ht ht flag θ) (misbad_low_ht ht flag θ) "non")
        k).misbad = none := by
    intro hne
    simp only [misbad_row] at hne ⊢
    rw [if_neg]
    simp only [beq_iff_eq]
    exact hne
  refine ⟨rfl, ?_, ?_, hne_part, ?_, rfl⟩
  · intro hm
    simp only [misbad_row] at hm ⊢
    rw [if_pos]
    simp only [beq_iff_eq]
    exact hm
  · intro v hv
    simp only [misbad_row] at hv
    split at hv
    · exact (Option.some.injEq _ _ ▸ hv) ▸ min_le_right _ _
    · exact absurd hv (by simp)
  · intro hcsq
    exact hne_part (by
      simp only [misbad_row]
      exact variant_csq_expr_ne_mis k.1 k.2 hcsq)

/-- Witness for C3: on a one-row catalog whose single pair is a stop-lost
substitution, the output pair receives an absent misbad value. -/
theorem calculate_misbad_spec_witness :
    (misbad_row
        (misbad_high_ht [⟨"STOP", "Ala", 1, 0⟩] false 1)
        (misbad_low_ht [⟨"STOP", "Ala", 1, 0⟩] false 1)
        (misbad_rate (misbad_high_ht [⟨"STOP", "Ala", 1, 0⟩] false 1)
          (misbad_low_ht [⟨"STOP", "Ala", 1, 0⟩] false 1) "syn")
        (misbad_rate (misbad_high_ht [⟨"STOP", "Ala", 1, 0⟩] false 1)
          (misbad_low_ht [⟨"STOP", "Ala", 1, 0⟩] false 1) "non")
        ("STOP", "Ala")).misbad = none := by
  have hk : ("STOP", "Ala") ∈ misbad_join_keys
      (misbad_high_ht [⟨"STOP", "Ala", 1, 0⟩] false 1)
      (misbad_low_ht [⟨"STOP", "Ala", 1, 0⟩] false 1) := by
    have hkeys : misbad_join_keys
        (misbad_high_ht [⟨"STOP", "Ala", 1, 0⟩] false 1)
        (misbad_low_ht [⟨"STOP", "Ala", 1, 0⟩] false 1) = [("STOP", "Ala")] := by
      rfl
    rw [hkeys]
    exact List.mem_singleton.mpr rfl
  exact (calculate_misbad_spec [⟨"STOP", "Ala", 1, 0⟩] false 1 _
      (List.mem_map_of_mem _ hk)).2.2.2.2.1 (Or.inr (Or.inr rfl))
